import Mathlib

/-!
Verification of the `rust-eth-abi` codec (encoder/decoder for the Ethereum ABI).

Shallow embedding conventions:
* Rust `&str` / `String` values are modelled as `List Char` (the repository's
  type strings are ASCII, where byte indices and char indices coincide).
* Rust `Vec<u8>` is modelled as `List Nat`, each entry a byte value.
* Fallible Rust functions returning `Result<_, CodecError>` become
  `Except CodecError _`; functions whose Rust bodies can additionally panic
  (unchecked slice indexing, `unwrap()`) return `Except RtError _`, where
  `RtError.panicked` models a Rust panic and `RtError.codec e` a returned error.
* The mutually recursive encode/decode walks are given an explicit fuel
  parameter (`RtError.fuelOut` when exhausted).  The Rust code has no fuel;
  every theorem below either holds for all fuel values or instantiates fuel
  large enough that `fuelOut` is unreachable on the concrete input.
-/

abbrev Chars := List Char
abbrev AbiBytes := List Nat

/-- Number of occurrences of `c` in `t`; models
`t.chars().filter(|x| *x == c).count()` from `src/common.rs`. -/
def countCh (t : Chars) (c : Char) : Nat := (t.filter (· = c)).length

/-- Index of the first occurrence of `c` (Rust `str::find`). -/
def findIdx : Chars → Char → Option Nat
  | [], _ => none
  | x :: xs, c => if x = c then some 0 else (findIdx xs c).map (· + 1)

/-- Index of the last occurrence of `c` (Rust `str::rfind`). -/
def rfindIdx : Chars → Char → Option Nat
  | [], _ => none
  | x :: xs, c =>
    match rfindIdx xs c with
    | some j => some (j + 1)
    | none => if x = c then some 0 else none

/-- Models `opt.map_or(-1, |i| i as isize)` used by `is_array`. -/
def idxOr (o : Option Nat) : Int := o.elim (-1) (fun i => (i : Int))

/-- Rust `usize::from_str` on a char slice: optional leading `+`, at least one
digit, all digits.  (The source's overflow failure for astronomically long
digit strings is not modelled; no input below approaches it.) -/
def parseUsize (l : Chars) : Option Nat :=
  let ds := match l with | '+' :: rest => rest | _ => l
  if ds ≠ [] ∧ ds.all (·.isDigit) then
    some (ds.foldl (fun a c => a * 10 + (c.toNat - 48)) 0)
  else none

/-- Does `l` start with pattern `p`? (helper for substring containment). -/
def startsWithL : Chars → Chars → Bool
  | _, [] => true
  | [], _ :: _ => false
  | x :: xs, y :: ys => x = y && startsWithL xs ys

/-- Rust `str::contains(pattern)`: some suffix of `l` starts with `p`. -/
def containsSub : Chars → Chars → Bool
  | [], p => p.isEmpty
  | l@(_ :: xs), p => startsWithL l p || containsSub xs p

def sBrackets : Chars := ['[', ']']
def sBytesWord : Chars := ['b', 'y', 't', 'e', 's']
def sStringWord : Chars := ['s', 't', 'r', 'i', 'n', 'g']

/-- `is_dynamic` from `src/common.rs`:
`t.contains("[]") || t.contains("bytes") || t.contains("string")`. -/
def is_dynamic (t : Chars) : Bool :=
  containsSub t sBrackets || containsSub t sBytesWord || containsSub t sStringWord

/-- Rust `str::trim` (both ends); the repository's inputs are ASCII, where
`Char.isWhitespace` agrees with Rust's `char::is_whitespace`. -/
def trimL (l : Chars) : Chars :=
  (((l.dropWhile Char.isWhitespace).reverse).dropWhile Char.isWhitespace).reverse

/-- Push a segment unless it is empty (`if !part.is_empty() { result.push(part) }`). -/
def pushPart (part : Chars) (acc : List Chars) : List Chars :=
  if part.isEmpty then acc else acc ++ [part]

/-- The character loop of `split_parameter_types` (`src/common.rs`): walk the
(unwrapped) string tracking parenthesis depth (an `isize` in Rust, hence `Int`
here), splitting at depth-0 commas; each segment is trimmed and empty segments
are discarded.  `cur` is the current segment accumulated in reverse. -/
def splitTop : Chars → Int → Chars → List Chars → List Chars
  | [], _, cur, acc => pushPart (trimL cur.reverse) acc
  | c :: rest, depth, cur, acc =>
    if c = '(' then splitTop rest (depth + 1) (c :: cur) acc
    else if c = ')' then splitTop rest (depth - 1) (c :: cur) acc
    else if c = ',' ∧ depth = 0 then
      splitTop rest depth [] (pushPart (trimL cur.reverse) acc)
    else splitTop rest depth (c :: cur) acc

/-- `split_parameter_types` from `src/common.rs`: strips one layer of outer
parentheses when the string both starts with `(` and ends with `)`, then
splits at top-level commas. -/
def split_parameter_types (t : Chars) : List Chars :=
  let inner := if t.head? = some '(' ∧ t.getLast? = some ')' then (t.drop 1).dropLast else t
  splitTop inner 0 [] []

/-- The value model (`src/codec/types.rs`).  A `Single` carries the boxed
scalar's canonical byte payload (`to_bytes_vec`) together with its `eth_type`
tag; a `Collection` is an ordered list of values used for both tuples and
arrays. -/
inductive Value where
  | Single (payload : AbiBytes) (ty : Chars)
  | Collection (vs : List Value)
deriving Repr

mutual
/-- Boolean equality on values (structural). -/
def valueBEq : Value → Value → Bool
  | .Single p ty, .Single q tz => p == q && ty == tz
  | .Collection vs, .Collection ws => valueListBEq vs ws
  | _, _ => false
def valueListBEq : List Value → List Value → Bool
  | [], [] => true
  | v :: vs, w :: ws => valueBEq v w && valueListBEq vs ws
  | _, _ => false
end

mutual
theorem valueBEq_iff : (a b : Value) → (valueBEq a b = true ↔ a = b)
  | .Single p ty, .Single q tz => by simp [valueBEq]
  | .Single _ _, .Collection _ => by simp [valueBEq]
  | .Collection _, .Single _ _ => by simp [valueBEq]
  | .Collection vs, .Collection ws => by
      have h := valueListBEq_iff vs ws
      simp [valueBEq, h]
theorem valueListBEq_iff : (as bs : List Value) → (valueListBEq as bs = true ↔ as = bs)
  | [], [] => by simp [valueListBEq]
  | [], _ :: _ => by simp [valueListBEq]
  | _ :: _, [] => by simp [valueListBEq]
  | a :: as, b :: bs => by
      have h1 := valueBEq_iff a b
      have h2 := valueListBEq_iff as bs
      simp [valueListBEq, h1, h2]
end

instance : DecidableEq Value := fun a b => decidable_of_iff _ (valueBEq_iff a b)

/-- Rust `", ".join`-style comma join used by `Value::eth_type` for
collections (`src/codec/implementations.rs`, `join(",")`). -/
def joinComma : List Chars → Chars
  | [] => []
  | [x] => x
  | x :: y :: xs => x ++ ',' :: joinComma (y :: xs)

mutual
/-- `EncodeCodec::eth_type` for `Value` (`src/codec/implementations.rs`). -/
def ethType : Value → Chars
  | .Single _ ty => ty
  | .Collection vs => joinComma (ethTypeList vs)
def ethTypeList : List Value → List Chars
  | [] => []
  | v :: vs => ethType v :: ethTypeList vs
end

mutual
/-- `EncodeCodec::to_bytes_vec` for `Value`.  For every scalar implementation
in `src/codec/extensions.rs` / `initializer.rs`, `to_bytes_vec` returns the
exact-width big-endian payload the leaf was built from, which is what a
`Single` stores. -/
def toBytesVec : Value → AbiBytes
  | .Single p _ => p
  | .Collection vs => toBytesVecList vs
def toBytesVecList : List Value → AbiBytes
  | [] => []
  | v :: vs => toBytesVec v ++ toBytesVecList vs
end

mutual
/-- `EncodeCodec::bytes_length` for `Value`; every scalar implementation
reports the payload's byte length. -/
def bytesLength : Value → Nat
  | .Single p _ => p.length
  | .Collection vs => bytesLengthList vs
def bytesLengthList : List Value → Nat
  | [] => 0
  | v :: vs => bytesLength v + bytesLengthList vs
end

/-- `CodecError` (`src/errors.rs`).  `InvalidTypeAndValue` in the source also
carries a rendering of the offending value (`value.to_string()`, or a
formatted length-mismatch message in `encode_array`); no claim inspects that
rendering, so the model keeps only the type-string component. -/
inductive CodecError where
  | InvalidArray (t : Chars)
  | InvalidTuple (t : Chars)
  | InvalidFunctionSignature (t : Chars)
  | InvalidTypeAndValue (t : Chars)
  | LengthsMismatch (n m : Nat)
  | InvalidValueLength (n : Nat)
  | UnsupportedType (t : Chars)
  | InvalidSelector
deriving DecidableEq, Repr

/-- Runtime outcome of a fallible Rust function: a returned `CodecError`, a
panic (unchecked slice indexing, `unwrap()`), or model fuel exhaustion. -/
inductive RtError where
  | codec (e : CodecError)
  | panicked
  | fuelOut
deriving DecidableEq, Repr

deriving instance DecidableEq for Except

def liftC : Except CodecError α → Except RtError α
  | .ok a => .ok a
  | .error e => .error (.codec e)

/-- Rust slice `&l[a..b]`: panics unless `a ≤ b ≤ l.len()`. -/
def sliceIx (l : AbiBytes) (a b : Nat) : Except RtError AbiBytes :=
  if a ≤ b ∧ b ≤ l.length then .ok ((l.drop a).take (b - a)) else .error .panicked

/-- Rust slice `&l[a..]`: panics unless `a ≤ l.len()`. -/
def sliceFrom (l : AbiBytes) (a : Nat) : Except RtError AbiBytes :=
  if a ≤ l.length then .ok (l.drop a) else .error .panicked

/-- Big-endian value of a byte list (`u64::from_be_bytes` on an 8-byte slice;
all inputs fed to it are byte-valued, so no truncation arises). -/
def beNat (l : AbiBytes) : Nat := l.foldl (fun a b => a * 256 + b) 0

/-- `width`-byte big-endian bytes of `n` (`U256::from(n).to_bytes_vec()` with
`width = 32`; offsets and lengths never reach `2 ^ 256`). -/
def beBytesN (width n : Nat) : AbiBytes :=
  (List.range width).map (fun i => n / 256 ^ (width - 1 - i) % 256)

/-- `pad_left` (`src/codec/utils.rs`): left zero-pad up to `target`, returning
the input unchanged when it is already at least that long. -/
def pad_left (input : AbiBytes) (target : Nat) : AbiBytes :=
  if input.length ≥ target then input
  else List.replicate (target - input.length) 0 ++ input

/-- `pad_right` (`src/codec/utils.rs`): right zero-pad up to `target`,
returning the input unchanged when it is already at least that long. -/
def pad_right (input : AbiBytes) (target : Nat) : AbiBytes :=
  if input.length ≥ target then input
  else input ++ List.replicate (target - input.length) 0

/-- `header[offset..offset + repl.len()].copy_from_slice(&repl)`: in-place
overwrite, panicking when the range exceeds the buffer. -/
def writeSlice (l : AbiBytes) (off : Nat) (repl : AbiBytes) : Except RtError AbiBytes :=
  if off + repl.length ≤ l.length then
    .ok (l.take off ++ repl ++ l.drop (off + repl.length))
  else .error .panicked

/-- The back-patch loop of `abi_encode` / `encode_array`: each placeholder
`(header_offset, footer_offset)` is overwritten with
`U256::from(header.len() + footer_offset)` as 32 big-endian bytes.  `hl` is
the header length, which the in-place writes never change. -/
def applyPatches : AbiBytes → List (Nat × Nat) → Nat → Except RtError AbiBytes
  | h, [], _ => .ok h
  | h, (ho, fo) :: rest, hl =>
    match writeSlice h ho (beBytesN 32 (hl + fo)) with
    | .error e => .error e
    | .ok h2 => applyPatches h2 rest hl

/-- `get_collection_i(values, i)` (`src/codec/utils.rs`) applied to the value
at the loop's current index: the encode/decode loops enumerate `zip`ped pairs,
so `values[i]` is exactly the current value. -/
def get_collection_i : Value → List Value
  | .Single p ty => [.Single p ty]
  | .Collection vs => vs

/-- `is_array` from `src/common.rs`: bracket counts must balance; with at
least one bracket, the last `[`/`]`/`)` positions are compared (`-1` when
absent, as in the Rust `map_or(-1, ..)`), a trailing tuple wins the
tie-break, and a nonempty text between the final brackets must parse as a
`usize`. -/
def is_array (t : Chars) : Except CodecError (Bool × Nat) :=
  if countCh t '[' ≠ countCh t ']' then .error (.InvalidArray t)
  else if 0 < countCh t '[' then
    let openIdx : Int := idxOr (rfindIdx t '[')
    let closeIdx : Int := idxOr (rfindIdx t ']')
    let parenIdx : Int := idxOr (rfindIdx t ')')
    if openIdx < parenIdx ∨ closeIdx < parenIdx then .ok (false, 0)
    else if openIdx + 1 < closeIdx then
      match parseUsize ((t.drop (openIdx.toNat + 1)).take (closeIdx.toNat - (openIdx.toNat + 1))) with
      | some n => .ok (true, n)
      | none => .error (.InvalidArray t)
    else .ok (true, 0)
  else .ok (false, 0)

/-- `is_tuple` from `src/common.rs`: parenthesis counts must balance; with at
least one `(`, the components are `split_parameter_types` of the slice
between the first `(` and the last `)` (that slice panics when the last `)`
precedes the first `(`). -/
def is_tuple (t : Chars) : Except RtError (Bool × List Chars) :=
  if countCh t '(' ≠ countCh t ')' then .error (.codec (.InvalidTuple t))
  else if 0 < countCh t '(' then
    match findIdx t '(', rfindIdx t ')' with
    | some a, some b =>
      if a + 1 ≤ b ∧ b ≤ t.length then
        .ok (true, split_parameter_types ((t.drop (a + 1)).take (b - (a + 1))))
      else .error .panicked
    | _, _ => .error .panicked
  else .ok (false, [])

/-- Decimal digits of `n` (for building the `uint8`/`int8`/`bytes1`… names). -/
def natDigitsAux : Nat → Nat → Chars
  | 0, _ => []
  | f + 1, n =>
    if n < 10 then [Char.ofNat (48 + n)]
    else natDigitsAux f (n / 10) ++ [Char.ofNat (48 + n % 10)]

def natDigits (n : Nat) : Chars := natDigitsAux (n + 1) n

def uintName (bits : Nat) : Chars := ['u', 'i', 'n', 't'] ++ natDigits bits
def intName (bits : Nat) : Chars := ['i', 'n', 't'] ++ natDigits bits
def bytesNName (n : Nat) : Chars := sBytesWord ++ natDigits n

def tyAddress : Chars := ['a', 'd', 'd', 'r', 'e', 's', 's']
def tyBool : Chars := ['b', 'o', 'o', 'l']

/-- The width table enumerated by the `match` arms of `check_type_and_value`
(`src/common.rs`) and `decode_packed` (`src/decode.rs`): `uintN`/`intN` (N a
multiple of 8 up to 256) and `bytesK` (K in 1..=32) with width `N/8` resp.
`K`, plus `address` (20) and `bool` (1).  `string` and dynamic `bytes` are
handled separately by their callers. -/
def widthTable : List (Chars × Nat) :=
  ((List.range 32).map fun k => (uintName ((k + 1) * 8), k + 1)) ++
    ((List.range 32).map fun k => (intName ((k + 1) * 8), k + 1)) ++
    ((List.range 32).map fun k => (bytesNName (k + 1), k + 1)) ++
    [(tyAddress, 20), (tyBool, 1)]

/-- `check_type_and_value` from `src/common.rs`:
`t == v.eth_type()` and, except for `string`/`bytes` (always accepted), the
value's byte length must equal the declared width; unknown names fail. -/
def check_type_and_value (t : Chars) (v : Value) : Bool :=
  ethType v = t &&
    (if t = sStringWord ∨ t = sBytesWord then true
     else match widthTable.lookup t with
       | some w => bytesLength v = w
       | none => false)

/-- Modelled from the spec: `get_bytes_from_type` is imported by
`src/decode.rs` from `crate::common` but its definition is not present under
`src/`.  The spec's width table (sections 4.2 and 6) fixes it: `uintN`/`intN`
map to `N/8`, `bytesN` to `N`, `address` to 20, `bool` to 1.  Names outside
the table are mapped to 0 here; the decoder then reads an empty payload and
`decode_packed` reports `UnsupportedType`, matching the spec's decoder error
enumeration. -/
def get_bytes_from_type (t : Chars) : Nat := (widthTable.lookup t).getD 0

/-- RFC 3629 UTF-8 validity over raw bytes, modelling whether Rust's
`String::from_utf8` succeeds (`src/decode.rs` `unwrap`s its result). -/
def validUtf8 : AbiBytes → Bool
  | [] => true
  | b :: rest =>
    if b ≤ 0x7F then validUtf8 rest
    else if 0xC2 ≤ b ∧ b ≤ 0xDF then
      match rest with
      | c1 :: r => if 0x80 ≤ c1 ∧ c1 ≤ 0xBF then validUtf8 r else false
      | _ => false
    else if b = 0xE0 then
      match rest with
      | c1 :: c2 :: r =>
        if (0xA0 ≤ c1 ∧ c1 ≤ 0xBF) ∧ (0x80 ≤ c2 ∧ c2 ≤ 0xBF) then validUtf8 r else false
      | _ => false
    else if (0xE1 ≤ b ∧ b ≤ 0xEC) ∨ b = 0xEE ∨ b = 0xEF then
      match rest with
      | c1 :: c2 :: r =>
        if (0x80 ≤ c1 ∧ c1 ≤ 0xBF) ∧ (0x80 ≤ c2 ∧ c2 ≤ 0xBF) then validUtf8 r else false
      | _ => false
    else if b = 0xED then
      match rest with
      | c1 :: c2 :: r =>
        if (0x80 ≤ c1 ∧ c1 ≤ 0x9F) ∧ (0x80 ≤ c2 ∧ c2 ≤ 0xBF) then validUtf8 r else false
      | _ => false
    else if b = 0xF0 then
      match rest with
      | c1 :: c2 :: c3 :: r =>
        if (0x90 ≤ c1 ∧ c1 ≤ 0xBF) ∧ (0x80 ≤ c2 ∧ c2 ≤ 0xBF) ∧ (0x80 ≤ c3 ∧ c3 ≤ 0xBF) then
          validUtf8 r
        else false
      | _ => false
    else if 0xF1 ≤ b ∧ b ≤ 0xF3 then
      match rest with
      | c1 :: c2 :: c3 :: r =>
        if (0x80 ≤ c1 ∧ c1 ≤ 0xBF) ∧ (0x80 ≤ c2 ∧ c2 ≤ 0xBF) ∧ (0x80 ≤ c3 ∧ c3 ≤ 0xBF) then
          validUtf8 r
        else false
      | _ => false
    else if b = 0xF4 then
      match rest with
      | c1 :: c2 :: c3 :: r =>
        if (0x80 ≤ c1 ∧ c1 ≤ 0x8F) ∧ (0x80 ≤ c2 ∧ c2 ≤ 0xBF) ∧ (0x80 ≤ c3 ∧ c3 ≤ 0xBF) then
          validUtf8 r
        else false
      | _ => false
    else false

/-- `encode_packed` (`src/encode.rs`): validate the type/value pair, then emit
the scalar's natural-width bytes. -/
def encode_packed (t : Chars) (v : Value) : Except CodecError AbiBytes :=
  if check_type_and_value t v then .ok (toBytesVec v) else .error (.InvalidTypeAndValue t)

/-- The accumulation loop of `encode_packed_array` (`src/encode.rs`).  Note
the source builds `encoded = encoded_value.chain(encoded)`, i.e. each new
element's bytes are PREPENDED to the accumulator. -/
def packedArrayGo (t : Chars) : List Value → AbiBytes → Except CodecError AbiBytes
  | [], acc => .ok acc
  | v :: vs, acc =>
    match encode_packed t v with
    | .error e => .error e
    | .ok e => packedArrayGo t vs (e ++ acc)

/-- `encode_packed_array` (`src/encode.rs`): encodes each element with
`encode_packed` against `type_str` — the FULL array type string, with no
element-type extraction — prepending each result. -/
def encode_packed_array (t : Chars) (values : List Value) : Except CodecError AbiBytes :=
  packedArrayGo t values []

/-- `encode` (`src/encode.rs`): packed bytes, then for dynamic types a 32-byte
big-endian length prefix followed by the payload right-padded to (at most) 32
bytes; for static types the payload left-padded to 32 bytes. -/
def encode (t : Chars) (v : Value) (isDyn : Bool) : Except CodecError AbiBytes :=
  match encode_packed t v with
  | .error e => .error e
  | .ok enc =>
    if isDyn then .ok (beBytesN 32 enc.length ++ pad_right enc 32)
    else .ok (pad_left enc 32)

/-- The element loop of `encode_array` (`src/encode.rs`), parameterized by the
recursive `abi_encode` (`enc`).  Tuple elements go through `abi_encode`;
others through `encode`.  Dynamic elements leave a 32-byte zero placeholder in
the header, record `(i * 32, footer.len())`, and append to the footer; static
elements RE-ENCODE the value via `encode(type_str, value, is_dynamic_type)`
(the source shadows `encoded_value` in its `else` branch) and extend the
header. -/
def encodeArrayGo (enc : List Chars → List Value → Except RtError AbiBytes)
    (t : Chars) (tupTys : List Chars) (isDyn isTup : Bool) :
    List Value → Nat → AbiBytes → List (Nat × Nat) → AbiBytes →
    Except RtError (AbiBytes × List (Nat × Nat) × AbiBytes)
  | [], _, h, phs, ft => .ok (h, phs, ft)
  | v :: vs, i, h, phs, ft =>
    match (if isTup then enc tupTys (get_collection_i v) else liftC (encode t v isDyn)) with
    | .error e => .error e
    | .ok ev =>
      if isDyn then
        encodeArrayGo enc t tupTys isDyn isTup vs (i + 1)
          (h ++ List.replicate 32 0) (phs ++ [(i * 32, ft.length)]) (ft ++ ev)
      else
        match encode t v isDyn with
        | .error e => .error (.codec e)
        | .ok ev2 => encodeArrayGo enc t tupTys isDyn isTup vs (i + 1) (h ++ ev2) phs ft

/-- `encode_array` (`src/encode.rs`), parameterized by the recursive
`abi_encode`: a declared fixed size must match the element count; the element
type is the prefix of the array type before the first `[`; after the loop the
placeholders are back-patched and, for `T[]` (size 0), a 32-byte element count
is prepended. -/
def encode_arrayF (enc : List Chars → List Value → Except RtError AbiBytes)
    (arrT : Chars) (values : List Value) (size : Nat) (isDyn isTup : Bool)
    (tupTys : List Chars) : Except RtError AbiBytes :=
  if size ≠ 0 ∧ size ≠ values.length then .error (.codec (.InvalidTypeAndValue arrT))
  else
    let t := arrT.takeWhile (· ≠ '[')
    match encodeArrayGo enc t tupTys isDyn isTup values 0 [] [] [] with
    | .error e => .error e
    | .ok (h, phs, ft) =>
      match applyPatches h phs h.length with
      | .error e => .error e
      | .ok h2 =>
        if size = 0 then .ok (beBytesN 32 values.length ++ (h2 ++ ft))
        else .ok (h2 ++ ft)

/-- The parameter loop of `abi_encode` (`src/encode.rs`), parameterized by the
recursive `abi_encode` (`enc`).  For each `(type, value)` pair (index `i`):
classify via `is_array` / `is_dynamic` / `is_tuple`; encode via
`encode_array`, `abi_encode` (tuple) or `encode`; a dynamic parameter leaves a
32-byte zero placeholder and records `(i * 32, footer.len())`, a static one
RE-ENCODES the value through the scalar `encode` (the source's `else` branch
shadows `encoded_value`) and extends the header. -/
def abiEncodeGo (enc : List Chars → List Value → Except RtError AbiBytes) :
    List Chars → List Value → Nat → AbiBytes → List (Nat × Nat) → AbiBytes →
    Except RtError (AbiBytes × List (Nat × Nat) × AbiBytes)
  | [], _, _, h, phs, ft => .ok (h, phs, ft)
  | _ :: _, [], _, h, phs, ft => .ok (h, phs, ft)
  | t :: ts, v :: vs, i, h, phs, ft =>
    match is_array t with
    | .error e => .error (.codec e)
    | .ok (isArr, size) =>
      let isDyn := is_dynamic t
      match is_tuple t with
      | .error e => .error e
      | .ok (isTup, tupTys) =>
        match
          (if isArr then encode_arrayF enc t (get_collection_i v) size isDyn isTup tupTys
           else if isTup then enc tupTys (get_collection_i v)
           else liftC (encode t v isDyn)) with
        | .error e => .error e
        | .ok ev =>
          if isDyn then
            abiEncodeGo enc ts vs (i + 1)
              (h ++ List.replicate 32 0) (phs ++ [(i * 32, ft.length)]) (ft ++ ev)
          else
            match encode t v isDyn with
            | .error e => .error (.codec e)
            | .ok ev2 => abiEncodeGo enc ts vs (i + 1) (h ++ ev2) phs ft

/-- `abi_encode` (`src/encode.rs`): the type and value lists must have equal
length; run the parameter loop, back-patch each placeholder with
`header.len() + footer_offset`, and append the footer.  The fuel only bounds
the tuple recursion depth. -/
def abi_encode : Nat → List Chars → List Value → Except RtError AbiBytes
  | fuel, ts, vs =>
    if ts.length ≠ vs.length then .error (.codec (.LengthsMismatch ts.length vs.length))
    else
      match fuel with
      | 0 => .error .fuelOut
      | f + 1 =>
        match abiEncodeGo (fun ts2 vs2 => abi_encode f ts2 vs2) ts vs 0 [] [] [] with
        | .error e => .error e
        | .ok (h, phs, ft) =>
          match applyPatches h phs h.length with
          | .error e => .error e
          | .ok h2 => .ok (h2 ++ ft)

/-- The parameter loop of `abi_encode_packed` (`src/encode.rs`), parameterized
by the recursive `abi_encode_packed` (`encp`): arrays go through
`encode_packed_array` (with the full array type string), tuples recurse, and
scalars use `encode_packed`; results are concatenated in parameter order. -/
def packedGo (encp : List Chars → List Value → Except RtError AbiBytes) :
    List Chars → List Value → Except RtError AbiBytes
  | [], _ => .ok []
  | _ :: _, [] => .ok []
  | t :: ts, v :: vs =>
    match is_array t with
    | .error e => .error (.codec e)
    | .ok (isArr, _) =>
      match is_tuple t with
      | .error e => .error e
      | .ok (isTup, tupTys) =>
        match
          (if isArr then liftC (encode_packed_array t (get_collection_i v))
           else if isTup then encp tupTys (get_collection_i v)
           else liftC (encode_packed t v)) with
        | .error e => .error e
        | .ok ev =>
          match packedGo encp ts vs with
          | .error e => .error e
          | .ok rest => .ok (ev ++ rest)

/-- `abi_encode_packed` (`src/encode.rs`): length check, then the packed
parameter loop. -/
def abi_encode_packed : Nat → List Chars → List Value → Except RtError AbiBytes
  | fuel, ts, vs =>
    if ts.length ≠ vs.length then .error (.codec (.LengthsMismatch ts.length vs.length))
    else
      match fuel with
      | 0 => .error .fuelOut
      | f + 1 => packedGo (fun ts2 vs2 => abi_encode_packed f ts2 vs2) ts vs

/-- `handle_offset` (`src/decode.rs`): for a dynamic type, read the u64 in
bytes `[cursor+24..cursor+32]` as the offset and return the buffer from
`offset + tuple_cursor` on; for a static type return the 32-byte slot at
`cursor`.  All indexing is unchecked in the source (panics on short
buffers). -/
def handle_offset (encoded : AbiBytes) (cursor : Nat) (isDyn : Bool) (tupleCursor : Nat) :
    Except RtError AbiBytes :=
  if isDyn then
    match sliceIx encoded (cursor + 24) (cursor + 32) with
    | .error e => .error e
    | .ok w => sliceFrom encoded (beNat w + tupleCursor)
  else sliceIx encoded cursor (cursor + 32)

/-- `decode_packed` (`src/decode.rs`): build a leaf from the payload bytes.
`bytes` takes the whole slice; `string` additionally requires valid UTF-8 —
the source calls `String::from_utf8(..).unwrap()`, i.e. PANICS on invalid
UTF-8; `bool` reads one byte and normalizes it to 0/1 (`bytes[0] != 0`);
every other enumerated elementary type takes its declared width as an
unchecked prefix slice; unknown names give `UnsupportedType`. -/
def decode_packed (encodedValue : AbiBytes) (t : Chars) : Except RtError Value :=
  if t = sBytesWord then .ok (.Single encodedValue t)
  else if t = sStringWord then
    if validUtf8 encodedValue then .ok (.Single encodedValue t) else .error .panicked
  else if t = tyBool then
    match sliceIx encodedValue 0 1 with
    | .error e => .error e
    | .ok p => .ok (.Single [if p.headD 0 = 0 then 0 else 1] t)
  else
    match widthTable.lookup t with
    | some w =>
      match sliceIx encodedValue 0 w with
      | .error e => .error e
      | .ok p => .ok (.Single p t)
    | none => .error (.codec (.UnsupportedType t))

/-- `decode` (`src/decode.rs`): for dynamic types read the u64 length from
bytes `[24..32]` and take `length` payload bytes from byte 32 on; for static
types take `get_bytes_from_type` bytes from the right end of the 32-byte
slot; then `decode_packed`. -/
def decode (encodedValue : AbiBytes) (t : Chars) (isDyn : Bool) : Except RtError Value :=
  match
    (if isDyn then
      match sliceIx encodedValue 24 32 with
      | .error e => .error e
      | .ok w => sliceIx encodedValue 32 (32 + beNat w)
    else sliceIx encodedValue (32 - get_bytes_from_type t) 32) with
  | .error e => .error e
  | .ok inner => decode_packed inner t

/-- The element loop of `decode_array` (`src/decode.rs`), parameterized by the
recursive `abi_decode` (`dec`) and counting down the remaining elements.  A
tuple element reads its slice via `handle_offset(encoded, cursor, is_dynamic,
cursor)` (the cursor doubles as `tuple_cursor`), decodes with `abi_decode`,
and then advances the cursor by `32 * values.len()` — the length of the
accumulator AFTER the push, as in the source; other elements advance by
32. -/
def decodeArrayGo (dec : List Chars → AbiBytes → Except RtError (List Value))
    (t : Chars) (tupTys : List Chars) (isDyn isTup : Bool) (encoded : AbiBytes) :
    Nat → Nat → List Value → Except RtError (List Value)
  | 0, _, acc => .ok acc
  | k + 1, cursor, acc =>
    if isTup then
      match handle_offset encoded cursor isDyn cursor with
      | .error e => .error e
      | .ok te =>
        match dec tupTys te with
        | .error e => .error e
        | .ok tv =>
          let acc2 := acc ++ [Value.Collection tv]
          decodeArrayGo dec t tupTys isDyn isTup encoded k (cursor + 32 * acc2.length) acc2
    else
      match handle_offset encoded cursor isDyn 0 with
      | .error e => .error e
      | .ok ev =>
        match decode ev t isDyn with
        | .error e => .error e
        | .ok v => decodeArrayGo dec t tupTys isDyn isTup encoded k (cursor + 32) (acc ++ [v])

/-- `decode_array` (`src/decode.rs`), parameterized by the recursive
`abi_decode`: when the declared size is 0 (`T[]`), the element count is the
u64 in bytes `[24..32]` and the buffer is rebased past the 32-byte length
word; the element type is the prefix of the array type before the first
`[`. -/
def decode_arrayF (dec : List Chars → AbiBytes → Except RtError (List Value))
    (arrT : Chars) (encoded : AbiBytes) (size : Nat) (isDyn isTup : Bool)
    (tupTys : List Chars) : Except RtError (List Value) :=
  match
    ((if size = 0 then
      match sliceIx encoded 24 32 with
      | .error e => .error e
      | .ok w =>
        match sliceFrom encoded 32 with
        | .error e => .error e
        | .ok rest => .ok (beNat w, rest)
    else .ok (size, encoded)) : Except RtError (Nat × AbiBytes)) with
  | .error e => .error e
  | .ok (size2, encoded2) =>
    let t := arrT.takeWhile (· ≠ '[')
    decodeArrayGo dec t tupTys isDyn isTup encoded2 size2 0 []

/-- The parameter loop of `abi_decode` (`src/decode.rs`), parameterized by the
recursive `abi_decode` (`dec`).  Each parameter reads its slice via
`handle_offset`, decodes (array / tuple / scalar), and advances the cursor by
`size * 32` where `size` is the DECODED ELEMENT COUNT for arrays and tuples
(1 for scalars) — even when the parameter occupied a single offset slot. -/
def abiDecodeGo (dec : List Chars → AbiBytes → Except RtError (List Value))
    (encoded : AbiBytes) :
    List Chars → Nat → List Value → Except RtError (List Value)
  | [], _, acc => .ok acc
  | t :: ts, cursor, acc =>
    match is_array t with
    | .error e => .error (.codec e)
    | .ok (isArr, size) =>
      let isDyn := is_dynamic t
      match is_tuple t with
      | .error e => .error e
      | .ok (isTup, tupTys) =>
        match handle_offset encoded cursor isDyn 0 with
        | .error e => .error e
        | .ok ev =>
          match
            ((if isArr then
              match decode_arrayF dec t ev size isDyn isTup tupTys with
              | .error e => .error e
              | .ok arr => .ok (Value.Collection arr, arr.length)
            else if isTup then
              match dec tupTys ev with
              | .error e => .error e
              | .ok tv => .ok (Value.Collection tv, tv.length)
            else
              match decode ev t isDyn with
              | .error e => .error e
              | .ok v => .ok (v, 1)) : Except RtError (Value × Nat)) with
          | .error e => .error e
          | .ok (value, size2) =>
            abiDecodeGo dec encoded ts (cursor + size2 * 32) (acc ++ [value])

/-- `abi_decode` (`src/decode.rs`): walk the type list over the buffer.  The
fuel only bounds the tuple recursion depth. -/
def abi_decode : Nat → List Chars → AbiBytes → Except RtError (List Value)
  | 0, _, _ => .error .fuelOut
  | f + 1, ts, encoded => abiDecodeGo (fun ts2 e2 => abi_decode f ts2 e2) encoded ts 0 []

/-- Byte view of an ASCII signature (`signature.as_bytes()`). -/
def charsToBytes (s : Chars) : AbiBytes := s.map Char.toNat

/-- `abi_encode_selector` (`src/encode.rs`) parameterized by the hash: the
spec (section 1) treats keccak-256 as an external pure function `H`, so the
development takes `H` as an argument; the selector is the first four bytes of
`H(signature)`. -/
def abi_encode_selector (H : AbiBytes → AbiBytes) (signature : Chars) :
    Except RtError AbiBytes :=
  sliceIx (H (charsToBytes signature)) 0 4

/-- `abi_encode_with_singature` (`src/encode.rs`; the source spells it this
way): selector of the signature, then `abi_encode` over
`split_parameter_types(signature)` — note: the splitter is applied to the
WHOLE signature, not to the slice between its parentheses. -/
def abi_encode_with_singature (fuel : Nat) (H : AbiBytes → AbiBytes)
    (signature : Chars) (values : List Value) : Except RtError AbiBytes :=
  match abi_encode_selector H signature with
  | .error e => .error e
  | .ok selector =>
    match abi_encode fuel (split_parameter_types signature) values with
    | .error e => .error e
    | .ok encoded => .ok (selector ++ encoded)

/-- `abi_decode_with_signature` (`src/decode.rs`): recompute the selector,
compare it with the first four bytes (unchecked slice), and decode the rest
against `split_parameter_types(signature)`. -/
def abi_decode_with_signature (fuel : Nat) (H : AbiBytes → AbiBytes)
    (signature : Chars) (encodedValues : AbiBytes) : Except RtError (List Value) :=
  match abi_encode_selector H signature with
  | .error e => .error e
  | .ok selector =>
    match sliceIx encodedValues 0 4 with
    | .error e => .error e
    | .ok head =>
      if selector ≠ head then .error (.codec .InvalidSelector)
      else abi_decode fuel (split_parameter_types signature) (encodedValues.drop 4)

def tyUint256 : Chars := uintName 256
def tyUint8 : Chars := uintName 8
def tyBytes4 : Chars := bytesNName 4
def vUintOne : Value := .Single (beBytesN 32 1) tyUint256
def vAddrZero : Value := .Single (List.replicate 20 0) tyAddress
def vBytes4 : Value := .Single [222, 173, 190, 239] tyBytes4
def vStrAB : Value := .Single [65, 66] sStringWord
def vU8a : Value := .Single [1] tyUint8
def vU8b : Value := .Single [2] tyUint8
def tyUint8Arr2 : Chars := tyUint8 ++ ['[', '2', ']']
def sigFString : Chars := ("f(string)").data
def sigTransfer : Chars := ("transfer(address,uint256)").data

/-- A stand-in for the out-of-scope keccak-256: any total `bytes -> bytes32`
function; the encode and decode sides compute the selector with the same
function, so its value is irrelevant to the theorems using it. -/
def hashZero : AbiBytes → AbiBytes := fun _ => List.replicate 32 0

/-- The bytes `abi_encode_with_singature` produces for `f(string)` applied to
the single leaf `vStrAB` (selector, then offset word 32, then the tuple body:
inner offset 32, length 2, padded payload). -/
def c1Encoded : AbiBytes :=
  [0, 0, 0, 0] ++ beBytesN 32 32 ++ beBytesN 32 32 ++ beBytesN 32 2 ++
    ([65, 66] ++ List.replicate 30 0)

/-- C1.  The round-trip law fails on the code.  With signature `f(string)`
and the compatible single-string value list `[vStrAB]`, encoding succeeds but
decoding the result yields `[Collection [vStrAB]]`, not `[vStrAB]`: the
decoder's tuple branch wraps the recovered parameters in an extra collection.
Moreover, for the all-static signature `transfer(address,uint256)` encoding
itself fails for either plausible value-list shape, because
`encode_with_signature` splits the WHOLE signature into a single pseudo-tuple
type whose static head path re-encodes the value through the scalar `encode`
and fails its type check (or reports `LengthsMismatch(1,2)` for a flat
pair). -/
theorem round_trip_with_signature_fails :
    abi_encode_with_singature 16 hashZero sigFString [vStrAB] = .ok c1Encoded ∧
    abi_decode_with_signature 16 hashZero sigFString c1Encoded =
      .ok [Value.Collection [vStrAB]] ∧
    ([Value.Collection [vStrAB]] : List Value) ≠ [vStrAB] ∧
    abi_encode_with_singature 16 hashZero sigTransfer
        [Value.Collection [vAddrZero, vUintOne]] =
      .error (.codec (.InvalidTypeAndValue sigTransfer)) ∧
    abi_encode_with_singature 16 hashZero sigTransfer [vAddrZero, vUintOne] =
      .error (.codec (.LengthsMismatch 1 2)) := by
  refine ⟨by decide, by decide, by decide, by decide, by decide⟩

/-- C2.  `bytes4` is classified as dynamic by `is_dynamic` (substring match
on `"bytes"`), so `abi_encode` never emits it as a static head slot: the head
slot holds the offset 32 (whose bytes `[4..32]` are not all zero) and the
payload is length-prefixed in the tail.  Even the scalar `encode` with the
static flag forced would LEFT-pad (`pad_left`), putting the payload at the
right end of the slot — in both readings the claimed right-zero-padding of a
left-aligned payload does not hold. -/
theorem bytesN_head_slot_not_right_padded :
    is_dynamic tyBytes4 = true ∧
    abi_encode 9 [tyBytes4] [vBytes4] =
      .ok (beBytesN 32 32 ++ beBytesN 32 4 ++ ([222, 173, 190, 239] ++ List.replicate 28 0)) ∧
    (((beBytesN 32 32).drop 4).all (· = 0)) = false ∧
    encode tyBytes4 vBytes4 false = .ok (List.replicate 28 0 ++ [222, 173, 190, 239]) := by
  refine ⟨by decide, by decide, by decide, by decide⟩

/-- C3.  `abi_encode_packed` on an array parameter rejects every nonempty
array: `encode_packed_array` feeds the FULL array type string (`uint8[2]`)
into the per-element `encode_packed`, whose `check_type_and_value` compares
it with the element's `eth_type` (`uint8`) and fails.  The accumulation loop
itself (exercised here directly with the element type) PREPENDS each
element's bytes, producing `[2, 1]` for elements `1, 2` — reversed, not in
declaration order. -/
theorem encode_packed_array_diverges :
    abi_encode_packed 9 [tyUint8Arr2] [Value.Collection [vU8a, vU8b]] =
      .error (.codec (.InvalidTypeAndValue tyUint8Arr2)) ∧
    encode_packed_array tyUint8Arr2 [vU8a, vU8b] = .error (.InvalidTypeAndValue tyUint8Arr2) ∧
    packedArrayGo tyUint8 [vU8a, vU8b] [] = .ok [2, 1] := by
  refine ⟨by decide, by decide, by decide⟩

/-- C4.  Decoding `uint256` from an empty buffer panics (`handle_offset`
slices `encoded_values[0..32]` unchecked); no `InvalidValueLength` error is
returned. -/
theorem abi_decode_short_buffer_panics :
    abi_decode 9 [tyUint256] [] = .error .panicked ∧
    abi_decode 9 [tyUint256] [] ≠ .error (.codec (.InvalidValueLength 0)) := by
  refine ⟨by decide, by decide⟩

/-- C5.  A `string` payload that is not valid UTF-8 (the single byte `0xFF`)
makes the decoder panic: `decode_packed` calls
`String::from_utf8(..).unwrap()`, so no decode error reaches the caller. -/
theorem decode_invalid_utf8_panics :
    validUtf8 [255] = false ∧
    decode_packed [255] sStringWord = .error .panicked ∧
    decode (beBytesN 32 1 ++ [255] ++ List.replicate 31 0) sStringWord true =
      .error .panicked := by
  refine ⟨by decide, by decide, by decide⟩

/-- C9.  An `Ok` result of `abi_encode` need not have length a multiple of
32: `pad_right(payload, 32)` returns payloads of 32 bytes or more unchanged,
so a 33-byte string encodes to 32 (offset) + 32 (length) + 33 (unpadded
payload) = 97 bytes. -/
theorem abi_encode_output_not_slot_aligned :
    abi_encode 9 [sStringWord] [.Single (List.replicate 33 65) sStringWord] =
      .ok (beBytesN 32 32 ++ beBytesN 32 33 ++ List.replicate 33 65) ∧
    (beBytesN 32 32 ++ beBytesN 32 33 ++ List.replicate 33 65).length % 32 = 1 := by
  refine ⟨by decide, by decide⟩

/-- C6.  Whenever the type and value lists differ in length, `abi_encode`
returns exactly `LengthsMismatch(|T|, |V|)`, for every fuel value. -/
theorem abi_encode_lengths_mismatch (fuel : Nat) (ts : List Chars) (vs : List Value)
    (h : ts.length ≠ vs.length) :
    abi_encode fuel ts vs = .error (.codec (.LengthsMismatch ts.length vs.length)) := by
  rw [abi_encode.eq_def]
  simp [h]

/-- C6 witness: `encode(["uint256","uint256"], [v])` gives
`LengthsMismatch(2, 1)`. -/
theorem abi_encode_lengths_mismatch_witness :
    ([tyUint256, tyUint256].length ≠ [vUintOne].length) ∧
      abi_encode 0 [tyUint256, tyUint256] [vUintOne] =
        .error (.codec (.LengthsMismatch 2 1)) :=
  ⟨by decide, abi_encode_lengths_mismatch 0 [tyUint256, tyUint256] [vUintOne] (by decide)⟩

theorem idxOr_some (n : Nat) : idxOr (some n) = (n : Int) := rfl

def exC7 : Chars := ("(bytes[x])").data

/-- C7 counterexample: on `"(bytes[x])"` the bracket counts balance and the
text `x` between the brackets does not parse as a size, yet `is_array`
returns `Ok (false, 0)` instead of failing with `InvalidArray` — the trailing
`)` closes after both brackets, so the tuple tie-break returns before the
size is inspected. -/
theorem is_array_nonparse_digits_ok :
    countCh exC7 '[' = countCh exC7 ']' ∧ parseUsize ['x'] = none ∧
      is_array exC7 = .ok (false, 0) := by
  refine ⟨by decide, by decide, by decide⟩

/-- C7 (amended).  `is_array(t)` fails with `InvalidArray(t)` whenever the
counts of `[` and `]` differ; when the counts balance, at least one bracket
occurs, neither the last `[` nor the last `]` precedes the last `)` (so the
tuple tie-break does not fire), the final bracket pair is non-adjacent and
the text between them does not parse as a size, it also fails with
`InvalidArray(t)`; in particular `is_array("address[")` is `InvalidArray`.
(When the last `)` closes after the brackets, the bracket content is not
inspected and no error is raised.) -/
theorem is_array_invalid_array_cases :
    (∀ t : Chars, countCh t '[' ≠ countCh t ']' → is_array t = .error (.InvalidArray t)) ∧
    (∀ (t : Chars) (o c : Nat), countCh t '[' = countCh t ']' → 0 < countCh t '[' →
      rfindIdx t '[' = some o → rfindIdx t ']' = some c →
      ¬((o : Int) < idxOr (rfindIdx t ')') ∨ (c : Int) < idxOr (rfindIdx t ')')) →
      (o : Int) + 1 < (c : Int) →
      parseUsize ((t.drop (o + 1)).take (c - (o + 1))) = none →
      is_array t = .error (.InvalidArray t)) ∧
    is_array (("address[").data) = .error (.InvalidArray (("address[").data)) := by
  refine ⟨?_, ?_, by decide⟩
  · intro t h
    unfold is_array
    rw [if_pos h]
  · intro t o c hbal hpos ho hc hpar hoc hparse
    have h1 : ¬(countCh t '[' ≠ countCh t ']') := by simpa using hbal
    unfold is_array
    rw [if_neg h1, if_pos hpos]
    simp only [ho, hc, idxOr_some]
    rw [if_neg hpar, if_pos hoc]
    simp only [Int.toNat_natCast]
    rw [hparse]

/-- C7 amended-theorem witness: the unbalanced case applied to
`"address["`. -/
theorem is_array_invalid_array_cases_witness :
    (countCh (("address[").data) '[' ≠ countCh (("address[").data) ']') ∧
      is_array (("address[").data) = .error (.InvalidArray (("address[").data)) :=
  ⟨by decide, is_array_invalid_array_cases.1 (("address[").data) (by decide)⟩

theorem pushPart_no_empty {p : Chars} {acc : List Chars}
    (hacc : ∀ x ∈ acc, x ≠ []) : ∀ x ∈ pushPart p acc, x ≠ [] := by
  intro x hx
  unfold pushPart at hx
  split at hx
  · exact hacc x hx
  · next hne =>
    rcases List.mem_append.mp hx with h | h
    · exact hacc x h
    · simp only [List.mem_singleton] at h
      subst h
      intro hcontra
      exact hne (by simp [hcontra])

theorem splitTop_no_empty (l : Chars) : ∀ (depth : Int) (cur : Chars) (acc : List Chars),
    (∀ x ∈ acc, x ≠ []) → ∀ part ∈ splitTop l depth cur acc, part ≠ [] := by
  induction l with
  | nil =>
    intro depth cur acc hacc part hp
    unfold splitTop at hp
    exact pushPart_no_empty hacc part hp
  | cons cc rest ih =>
    intro depth cur acc hacc part hp
    unfold splitTop at hp
    split at hp
    · exact ih _ _ _ hacc part hp
    · split at hp
      · exact ih _ _ _ hacc part hp
      · split at hp
        · exact ih _ _ _ (pushPart_no_empty hacc) part hp
        · exact ih _ _ _ hacc part hp

def exC8 : Chars := ("(uint256,(address,uint256[])[],uint8)").data

/-- C8.  `split_parameter_types` on
`"(uint256,(address,uint256[])[],uint8)"` returns exactly
`["uint256", "(address,uint256[])[]", "uint8"]`; every returned segment is
nonempty (empty segments are discarded); and when the input both starts with
`(` and ends with `)` the outer parentheses are stripped before the top-level
comma walk. -/
theorem split_parameter_types_behaviour :
    split_parameter_types exC8 =
      [("uint256").data, ("(address,uint256[])[]").data, ("uint8").data] ∧
    (∀ (t : Chars), ∀ part ∈ split_parameter_types t, part ≠ []) ∧
    (∀ t : Chars, t.head? = some '(' → t.getLast? = some ')' →
      split_parameter_types t = splitTop ((t.drop 1).dropLast) 0 [] []) := by
  refine ⟨by decide, ?_, ?_⟩
  · intro t part hp
    rw [show split_parameter_types t =
        splitTop (if t.head? = some '(' ∧ t.getLast? = some ')' then (t.drop 1).dropLast else t)
          0 [] [] from rfl] at hp
    exact splitTop_no_empty _ _ _ _ (fun x hx => absurd hx (List.not_mem_nil x)) part hp
  · intro t h1 h2
    unfold split_parameter_types
    rw [if_pos ⟨h1, h2⟩]

/-- C8 witness: the no-empty-segments conjunct at the concrete example's
first segment. -/
theorem split_parameter_types_behaviour_witness :
    (("uint256").data ∈ split_parameter_types exC8) ∧ ("uint256").data ≠ [] :=
  ⟨by decide, split_parameter_types_behaviour.2.1 exC8 (("uint256").data) (by decide)⟩

theorem append24_length {hi lo rest : AbiBytes} (h24 : hi.length = 24) (h8 : lo.length = 8) :
    (hi ++ (lo ++ rest)).length = 32 + rest.length := by
  simp [h24, h8]; omega

theorem sliceIx_word {hi lo rest : AbiBytes} (h24 : hi.length = 24) (h8 : lo.length = 8) :
    sliceIx (hi ++ (lo ++ rest)) 24 32 = .ok lo := by
  unfold sliceIx
  rw [if_pos ⟨by omega, by rw [append24_length h24 h8]; omega⟩]
  have hd : (hi ++ (lo ++ rest)).drop 24 = lo ++ rest := by
    conv_lhs => rw [← h24]
    exact List.drop_left hi (lo ++ rest)
  rw [hd]
  have ht : (lo ++ rest).take (32 - 24) = lo := by
    conv_lhs => rw [show (32 - 24 : Nat) = lo.length from by omega]
    exact List.take_left lo rest
  rw [ht]

theorem drop32_append {hi lo rest : AbiBytes} (h24 : hi.length = 24) (h8 : lo.length = 8) :
    (hi ++ (lo ++ rest)).drop 32 = rest := by
  have hs : hi ++ (lo ++ rest) = (hi ++ lo) ++ rest := by simp
  have hl : (hi ++ lo).length = 32 := by simp [h24, h8]
  rw [hs]
  conv_lhs => rw [← hl]
  exact List.drop_left _ _

theorem dropGe_append {hi lo rest : AbiBytes} (h24 : hi.length = 24) (h8 : lo.length = 8)
    {n : Nat} (hn : 32 ≤ n) :
    (hi ++ (lo ++ rest)).drop n = rest.drop (n - 32) := by
  have hs : hi ++ (lo ++ rest) = (hi ++ lo) ++ rest := by simp
  have hl : (hi ++ lo).length = 32 := by simp [h24, h8]
  rw [hs]
  conv_lhs => rw [show n = (hi ++ lo).length + (n - 32) from by omega]
  rw [List.drop_append]

/-- `handle_offset` on a dynamic head word at cursor 0 depends only on the
word's low 8 bytes `lo` and the tail `rest` beyond the word. -/
theorem handle_offset_high_bytes {hi lo rest : AbiBytes} (h24 : hi.length = 24)
    (h8 : lo.length = 8) (h32 : 32 ≤ beNat lo) :
    handle_offset (hi ++ (lo ++ rest)) 0 true 0 =
      if beNat lo ≤ 32 + rest.length then .ok (rest.drop (beNat lo - 32))
      else .error .panicked := by
  unfold handle_offset
  rw [if_pos rfl]
  rw [show (0 + 24 : Nat) = 24 from rfl, show (0 + 32 : Nat) = 32 from rfl]
  rw [sliceIx_word h24 h8]
  show sliceFrom (hi ++ (lo ++ rest)) (beNat lo + 0) = _
  rw [Nat.add_zero]
  unfold sliceFrom
  rw [append24_length h24 h8]
  by_cases hle : beNat lo ≤ 32 + rest.length
  · rw [if_pos hle, if_pos hle, dropGe_append h24 h8 h32]
  · rw [if_neg hle, if_neg hle]

/-- `decode` of a dynamic `string` reads only the length word's low 8 bytes
and the payload after the word. -/
theorem decode_string_eval {hi lo rest : AbiBytes} (h24 : hi.length = 24)
    (h8 : lo.length = 8) :
    decode (hi ++ (lo ++ rest)) sStringWord true =
      if beNat lo ≤ rest.length then decode_packed (rest.take (beNat lo)) sStringWord
      else .error .panicked := by
  unfold decode
  rw [if_pos rfl]
  rw [sliceIx_word h24 h8]
  show (match sliceIx (hi ++ (lo ++ rest)) 32 (32 + beNat lo) with
    | .error e => (Except.error e : Except RtError Value)
    | .ok inner => decode_packed inner sStringWord) = _
  unfold sliceIx
  rw [append24_length h24 h8]
  by_cases h : beNat lo ≤ rest.length
  · rw [if_pos ⟨by omega, by omega⟩, if_pos h, drop32_append h24 h8]
    simp
  · rw [if_neg (by omega), if_neg h]

/-- `decode_array` with declared size 0 reads only the length prefix's low 8
bytes and the buffer beyond the 32-byte length word. -/
theorem decode_array_eval {hi lo rest : AbiBytes} (h24 : hi.length = 24) (h8 : lo.length = 8)
    (dec : List Chars → AbiBytes → Except RtError (List Value)) (arrT : Chars)
    (isDyn isTup : Bool) (tupTys : List Chars) :
    decode_arrayF dec arrT (hi ++ (lo ++ rest)) 0 isDyn isTup tupTys =
      decodeArrayGo dec (arrT.takeWhile (· ≠ '[')) tupTys isDyn isTup rest (beNat lo) 0 [] := by
  unfold decode_arrayF
  rw [if_pos rfl]
  rw [sliceIx_word h24 h8]
  show (match ((match sliceFrom (hi ++ (lo ++ rest)) 32 with
      | .error e => Except.error e
      | .ok r => Except.ok (beNat lo, r)) : Except RtError (Nat × AbiBytes)) with
    | .error e => (Except.error e : Except RtError (List Value))
    | .ok (size2, encoded2) =>
      decodeArrayGo dec (arrT.takeWhile (· ≠ '[')) tupTys isDyn isTup encoded2 size2 0 []) = _
  unfold sliceFrom
  rw [append24_length h24 h8, if_pos (by omega), drop32_append h24 h8]

/-- C10.  Every 32-byte offset or length word the decoder reads is
interpreted through `u64::from_be_bytes` of its bytes `[24..32]` only; the
high 24 bytes are never inspected, so replacing them changes nothing.  The
three conjuncts cover the three word kinds: a dynamic parameter's head-slot
offset (`abi_decode` of a `string` parameter, whole-buffer equality when the
offset points past the head word), a `string`/`bytes` length prefix
(`decode`), and a dynamic array's element-count prefix (`decode_array` with
declared size 0, for every element type and flag combination). -/
theorem decoder_ignores_high_word_bytes :
    (∀ (fuel : Nat) (hi hi' lo rest : AbiBytes), hi.length = 24 → hi'.length = 24 →
      lo.length = 8 → 32 ≤ beNat lo →
      abi_decode fuel [sStringWord] (hi ++ (lo ++ rest)) =
        abi_decode fuel [sStringWord] (hi' ++ (lo ++ rest))) ∧
    (∀ hi hi' lo rest : AbiBytes, hi.length = 24 → hi'.length = 24 → lo.length = 8 →
      decode (hi ++ (lo ++ rest)) sStringWord true =
        decode (hi' ++ (lo ++ rest)) sStringWord true) ∧
    (∀ (dec : List Chars → AbiBytes → Except RtError (List Value)) (arrT : Chars)
      (isDyn isTup : Bool) (tupTys : List Chars) (hi hi' lo rest : AbiBytes),
      hi.length = 24 → hi'.length = 24 → lo.length = 8 →
      decode_arrayF dec arrT (hi ++ (lo ++ rest)) 0 isDyn isTup tupTys =
        decode_arrayF dec arrT (hi' ++ (lo ++ rest)) 0 isDyn isTup tupTys) := by
  refine ⟨?_, ?_, ?_⟩
  · intro fuel hi hi' lo rest h24 h24' h8 h32
    cases fuel with
    | zero => rfl
    | succ f =>
      simp only [abi_decode, abiDecodeGo]
      rw [show is_array sStringWord = Except.ok (false, 0) from rfl,
          show is_tuple sStringWord = Except.ok (false, []) from rfl,
          show is_dynamic sStringWord = true from rfl]
      rw [handle_offset_high_bytes h24 h8 h32, handle_offset_high_bytes h24' h8 h32]
  · intro hi hi' lo rest h24 h24' h8
    rw [decode_string_eval h24 h8, decode_string_eval h24' h8]
  · intro dec arrT isDyn isTup tupTys hi hi' lo rest h24 h24' h8
    rw [decode_array_eval h24 h8, decode_array_eval h24' h8]

def c10rest : AbiBytes := beBytesN 32 2 ++ ([65, 66] ++ List.replicate 30 0)

/-- C10 witness: the offset-word conjunct at a concrete buffer whose high 24
offset bytes are 7s on one side and 0s on the other. -/
theorem decoder_ignores_high_word_bytes_witness :
    ((List.replicate 24 7 : AbiBytes).length = 24 ∧
      (List.replicate 24 0 : AbiBytes).length = 24 ∧
      ([0, 0, 0, 0, 0, 0, 0, 32] : AbiBytes).length = 8 ∧
      32 ≤ beNat [0, 0, 0, 0, 0, 0, 0, 32]) ∧
    abi_decode 6 [sStringWord] (List.replicate 24 7 ++ ([0, 0, 0, 0, 0, 0, 0, 32] ++ c10rest)) =
      abi_decode 6 [sStringWord] (List.replicate 24 0 ++ ([0, 0, 0, 0, 0, 0, 0, 32] ++ c10rest)) :=
  ⟨⟨by decide, by decide, by decide, by decide⟩,
    decoder_ignores_high_word_bytes.1 6 (List.replicate 24 7) (List.replicate 24 0)
      [0, 0, 0, 0, 0, 0, 0, 32] c10rest (by decide) (by decide) (by decide) (by decide)⟩
